import Mathlib

/-!
Verification of the scheduling/throttling/retry core of the
notification-delivery service (`src/sender.py`).

The embedding is shallow: each Python class becomes a Lean structure and
each method a pure function.  Mutation of `self` is modelled by returning
the updated structure.  Readings of `time.monotonic()` are oracle
parameters of type `ℚ` (a monotonic clock only promises that successive
readings do not decrease, which appears as a hypothesis where needed).
Calls to `random.random()` are oracle parameters constrained to `[0, 1)`.
The simulated transport step inside `SenderThread.send` (the `time.sleep`
standing in for a network call) is modelled as an `Except PyErr Unit`
oracle so that an exception-raising transport can be analysed.  Python
exceptions are the abstract type `PyErr`; a value propagating as
`Except.error` models an exception unwinding the stack, carrying along the
mutations already performed.
-/

/-- Abstract Python exception (anything `except Exception` would catch). -/
inductive PyErr where
  | err : String → PyErr
deriving DecidableEq, Repr

/-- `class Message` of `sender.py`: body, scheduled send time, original
enqueue time and attempt counter. -/
structure Message where
  body : String
  send_at : ℚ
  queued_at : ℚ
  attempt : ℕ
deriving DecidableEq, Repr

/-- `Message.make_next_attempt(delay)`: the reading of `time.monotonic()`
inside the method is the explicit `now` parameter.  Returns a fresh
`Message` with `send_at = now + delay`, the attempt counter bumped, and
`body` and `queued_at` carried over. -/
def Message.make_next_attempt (m : Message) (now delay : ℚ) : Message :=
  { body := m.body, send_at := now + delay, queued_at := m.queued_at,
    attempt := m.attempt + 1 }

/-- `Message.__lt__`: ordering used by the priority queue. -/
def Message.lt (a b : Message) : Prop :=
  a.send_at < b.send_at

instance (a b : Message) : Decidable (Message.lt a b) :=
  inferInstanceAs (Decidable (a.send_at < b.send_at))

/-- `class SendQueue`: a `PriorityQueue` (modelled as the multiset of its
elements, here a list) plus the admission bound `maxsize`. -/
structure SendQueue where
  items : List Message
  maxsize : ℕ
deriving DecidableEq, Repr

/-- `SendQueue.__len__`: `qsize()` of the underlying priority queue. -/
def SendQueue.len (q : SendQueue) : ℕ :=
  q.items.length

/-- Removes one element with minimal `send_at` from a list, returning it
together with the remaining elements.  This is the observable behaviour of
`PriorityQueue.get` under `Message.__lt__` (ties broken arbitrarily, as in
the source, which specifies no tie-break). -/
def extractMin : List Message → Option (Message × List Message)
  | [] => none
  | m :: rest =>
    match extractMin rest with
    | none => some (m, [])
    | some (r, rest') =>
      if Message.lt r m then some (r, m :: rest') else some (m, rest)

/-- `SendQueue.get`: removes and returns the earliest-due message.  The
Python call blocks on an empty queue; blocking is modelled as `none`. -/
def SendQueue.get (q : SendQueue) : Option (Message × SendQueue) :=
  match extractMin q.items with
  | none => none
  | some (m, rest) => some (m, { q with items := rest })

/-- `SendQueue.put`: `put_nowait`, an unconditional insert with no
capacity check. -/
def SendQueue.put (q : SendQueue) (msg : Message) : SendQueue :=
  { q with items := msg :: q.items }

/-- `SendQueue.accept(now, body)`: builds a `Message` with
`send_at = now`, `queued_at = now`, `attempt = 0` (the default), inserts
it only when the current size is strictly below `maxsize`, and reports
admission as a boolean. -/
def SendQueue.accept (q : SendQueue) (now : ℚ) (body : String) :
    SendQueue × Bool :=
  let message : Message :=
    { body := body, send_at := now, queued_at := now, attempt := 0 }
  if q.items.length < q.maxsize then
    ({ q with items := message :: q.items }, true)
  else
    (q, false)

/-- `class RateLimiter`: token bucket with lazily computed refill. -/
structure RateLimiter where
  bucket_size : ℕ
  last_tick : ℚ
  available : ℚ
  window_secs : ℕ
deriving DecidableEq, Repr

/-- `RateLimiter.__init__(bucket_size, window_secs)` at clock reading
`now`: the bucket starts full. -/
def RateLimiter.init (bucket_size window_secs : ℕ) (now : ℚ) : RateLimiter :=
  { bucket_size := bucket_size, last_tick := now,
    available := bucket_size, window_secs := window_secs }

/-- `RateLimiter.is_allowed`: refills `available` by
`passed * bucket_size / window_secs`, clamps at `bucket_size`, advances
`last_tick`, and reports whether at least one whole token is available.
It does not deduct a token; the caller does that separately. -/
def RateLimiter.is_allowed (r : RateLimiter) (now : ℚ) : Bool × RateLimiter :=
  let passed := now - r.last_tick
  let refilled := r.available + passed * (r.bucket_size : ℚ) / (r.window_secs : ℚ)
  let avail := if refilled > (r.bucket_size : ℚ) then (r.bucket_size : ℚ) else refilled
  (decide (avail ≥ 1), { r with last_tick := now, available := avail })

/-- Observable state of `SenderThread`: the shared queue, the limiter, and
the four metric sinks.  Histograms are modelled as the lists of observed
values (most recent first); the gauge is derivable as `queue.len`. -/
structure SenderState where
  queue : SendQueue
  rate_limiter : RateLimiter
  rate_limited : ℕ
  lag_obs : List ℚ
  send_time_obs : List ℚ
  attempt_obs : List ℕ
deriving DecidableEq, Repr

/-- `SenderThread.send(item)`: consults the limiter (mutating it), bumps
the rate-limited counter and reports failure when refused; otherwise
deducts one token, performs the simulated transport step (`time.sleep`,
the `transport` oracle, which may raise), then records the three
histogram observations and reports success.  The returned state carries
every mutation performed before a raise. -/
def SenderThread.send (st : SenderState) (item : Message) (now send_rand : ℚ)
    (transport : Except PyErr Unit) : Except PyErr Bool × SenderState :=
  let (allowed, rl) := st.rate_limiter.is_allowed now
  if allowed then
    let rl := { rl with available := rl.available - 1 }
    let lag := now - item.queued_at
    let send_time := 1/5 + (3/10) * send_rand
    match transport with
    | Except.error e => (Except.error e, { st with rate_limiter := rl })
    | Except.ok _ =>
      (Except.ok true,
        { st with rate_limiter := rl,
                  lag_obs := lag :: st.lag_obs,
                  send_time_obs := send_time :: st.send_time_obs,
                  attempt_obs := item.attempt :: st.attempt_obs })
  else
    (Except.ok false,
      { st with rate_limiter := rl, rate_limited := st.rate_limited + 1 })

/-- The retry delay computed in `SenderThread.try_send` on a failed send:
`(attempt * 1.5 if attempt > 0 else 0.75) + 0.5 * random.random()`. -/
def backoff_delay (attempt : ℕ) (rand : ℚ) : ℚ :=
  (if 0 < attempt then (attempt : ℚ) * (3/2) else 3/4) + (1/2) * rand

/-- `SenderThread.try_send(item)`: on a `False` return from `send`,
re-enqueues `item.make_next_attempt(delay)`; any exception raised by
`send` is caught and logged, leaving the state as mutated so far. -/
def SenderThread.try_send (st : SenderState) (item : Message)
    (now send_rand delay_rand : ℚ) (transport : Except PyErr Unit) :
    SenderState :=
  match SenderThread.send st item now send_rand transport with
  | (Except.ok true, st') => st'
  | (Except.ok false, st') =>
    let delay := backoff_delay item.attempt delay_rand
    { st' with queue := st'.queue.put (item.make_next_attempt now delay) }
  | (Except.error _, st') => st'

/-- Result of one iteration of the `while True` loop in
`SenderThread.run`.  `blocked` models `queue.get()` suspending on an empty
queue; `next st sleep` models the loop continuing with the given state
after sleeping `sleep` seconds; `crashed` would model an exception
escaping the loop and killing the dispatcher thread. -/
inductive IterResult where
  | blocked : IterResult
  | next : SenderState → ℚ → IterResult
  | crashed : PyErr → IterResult
deriving DecidableEq, Repr

/-- The sleep duration of a completed iteration, if any. -/
def IterResult.sleep_amount : IterResult → Option ℚ
  | IterResult.next _ s => some s
  | _ => none

/-- The `try` block of the loop body of `SenderThread.run` (lines
106-116): dequeue, push back a not-yet-due item (the branch ending in
`continue`), otherwise `try_send`.  The boolean records whether control
reaches the `time.sleep(0.1)` at the bottom of the loop (`false` exactly
when `continue` skipped it).  Errors carry the state as mutated so far. -/
def SenderThread.run_body (st : SenderState) (now send_rand delay_rand : ℚ)
    (transport : Except PyErr Unit) :
    Option (Except (PyErr × SenderState) (SenderState × Bool)) :=
  match st.queue.get with
  | none => none
  | some (item, q') =>
    let st := { st with queue := q' }
    if item.send_at > now then
      some (Except.ok ({ st with queue := st.queue.put item }, false))
    else
      some (Except.ok
        (SenderThread.try_send st item now send_rand delay_rand transport, true))

/-- One iteration of `SenderThread.run`: the `try` body, the
`except Exception` handler (which logs and falls through), and the final
`time.sleep(0.1)` — reached in every branch except the `continue` one. -/
def SenderThread.run_iter (st : SenderState) (now send_rand delay_rand : ℚ)
    (transport : Except PyErr Unit) : IterResult :=
  match SenderThread.run_body st now send_rand delay_rand transport with
  | none => IterResult.blocked
  | some (Except.ok (st', true)) => IterResult.next st' (1/10)
  | some (Except.ok (st', false)) => IterResult.next st' 0
  | some (Except.error (_, st')) => IterResult.next st' (1/10)

/-- A chain of retries: folds `make_next_attempt` over a list of
`(now, delay)` oracle pairs, one per failed send. -/
def retry_chain (m : Message) : List (ℚ × ℚ) → Message
  | [] => m
  | (now, delay) :: rest => retry_chain (m.make_next_attempt now delay) rest

/-- Repeatedly pops the earliest-due message, `fuel` bounding the number
of pops: the observable order in which `SendQueue.get` would deliver the
queued messages if no insert intervened. -/
def drainAux : ℕ → List Message → List Message
  | 0, _ => []
  | fuel + 1, l =>
    match extractMin l with
    | none => []
    | some (m, rest) => m :: drainAux fuel rest

/-- The dispatch order of the current queue contents: the sequence of
successive `get` results. -/
def SendQueue.drain (q : SendQueue) : List Message :=
  drainAux q.items.length q.items

/-- A sequence of producer admissions: folds `SendQueue.accept` over a
list of `(now, body)` pairs and collects the returned booleans. -/
def acceptAll (q : SendQueue) : List (ℚ × String) → SendQueue × List Bool
  | [] => (q, [])
  | c :: rest =>
    let r := q.accept c.1 c.2
    let r2 := acceptAll r.1 rest
    (r2.1, r.2 :: r2.2)

/-- A dispatcher state whose only queued message is not yet due, with the
limiter full: the loop's too-early branch fires. -/
def earlyState : SenderState :=
  SenderState.mk (SendQueue.mk [Message.mk "early" 10 0 0] 5)
    (RateLimiter.mk 10 0 10 5) 0 [] [] []

example : (RateLimiter.is_allowed (RateLimiter.init 10 5 0) 7).1 = true := by
  norm_num [RateLimiter.is_allowed, RateLimiter.init]
example : ((RateLimiter.is_allowed (RateLimiter.init 10 5 0) 7).2).available = 10 := by
  norm_num [RateLimiter.is_allowed, RateLimiter.init]


theorem retry_chain_body (m : Message) (steps : List (ℚ × ℚ)) :
    (retry_chain m steps).body = m.body := by
  induction steps generalizing m with
  | nil => rfl
  | cons p rest ih =>
    cases p
    simp [retry_chain, ih, Message.make_next_attempt]

theorem retry_chain_queued_at (m : Message) (steps : List (ℚ × ℚ)) :
    (retry_chain m steps).queued_at = m.queued_at := by
  induction steps generalizing m with
  | nil => rfl
  | cons p rest ih =>
    cases p
    simp [retry_chain, ih, Message.make_next_attempt]

theorem retry_chain_attempt (m : Message) (steps : List (ℚ × ℚ)) :
    (retry_chain m steps).attempt = m.attempt + steps.length := by
  induction steps generalizing m with
  | nil => rfl
  | cons p rest ih =>
    cases p
    simp [retry_chain, ih, Message.make_next_attempt]
    omega

/-- C4: `nextAttempt(d)` called at clock reading `now` yields a new
`Message` with `attempt` one higher, `sendAt = now + d`, and `body` and
`queuedAt` identical; along any chain of retries `body` and `queuedAt`
are preserved and `attempt` grows by exactly the number of retries, so a
message admitted with `attempt = 0` carries `attempt = k` after `k`
retries. -/
theorem C4_make_next_attempt_fields (m : Message) (now delay : ℚ)
    (steps : List (ℚ × ℚ)) (h0 : m.attempt = 0) :
    (m.make_next_attempt now delay).attempt = m.attempt + 1 ∧
    (m.make_next_attempt now delay).send_at = now + delay ∧
    (m.make_next_attempt now delay).body = m.body ∧
    (m.make_next_attempt now delay).queued_at = m.queued_at ∧
    (retry_chain m steps).body = m.body ∧
    (retry_chain m steps).queued_at = m.queued_at ∧
    (retry_chain m steps).attempt = m.attempt + steps.length ∧
    (retry_chain m steps).attempt = steps.length := by
  refine ⟨rfl, rfl, rfl, rfl, retry_chain_body m steps,
    retry_chain_queued_at m steps, retry_chain_attempt m steps, ?_⟩
  rw [retry_chain_attempt m steps, h0, Nat.zero_add]

theorem C4_make_next_attempt_fields_witness :
    (Message.mk "hello" 0 0 0).attempt = 0 ∧
    ((Message.mk "hello" 0 0 0).make_next_attempt 2 3).attempt =
        (Message.mk "hello" 0 0 0).attempt + 1 ∧
    ((Message.mk "hello" 0 0 0).make_next_attempt 2 3).send_at = 2 + 3 ∧
    ((Message.mk "hello" 0 0 0).make_next_attempt 2 3).body =
        (Message.mk "hello" 0 0 0).body ∧
    ((Message.mk "hello" 0 0 0).make_next_attempt 2 3).queued_at =
        (Message.mk "hello" 0 0 0).queued_at ∧
    (retry_chain (Message.mk "hello" 0 0 0) [(2, 3), (7, 1)]).body =
        (Message.mk "hello" 0 0 0).body ∧
    (retry_chain (Message.mk "hello" 0 0 0) [(2, 3), (7, 1)]).queued_at =
        (Message.mk "hello" 0 0 0).queued_at ∧
    (retry_chain (Message.mk "hello" 0 0 0) [(2, 3), (7, 1)]).attempt =
        (Message.mk "hello" 0 0 0).attempt + 2 ∧
    (retry_chain (Message.mk "hello" 0 0 0) [(2, 3), (7, 1)]).attempt = 2 :=
  ⟨rfl, C4_make_next_attempt_fields (Message.mk "hello" 0 0 0) 2 3
    [(2, 3), (7, 1)] rfl⟩

/-- C3: the retry delay is the linear backoff base plus jitter
`0.5 * random()`; with `random()` in `[0, 1)` the jitter lies in
`[0, 0.5)`, the delay lies in `[0.75, 1.25)` for `attempt = 0` and in
`[1.5k, 1.5k + 0.5)` for `attempt = k > 0`. -/
theorem C3_backoff_delay_range (attempt : ℕ) (rand : ℚ)
    (h0 : 0 ≤ rand) (h1 : rand < 1) :
    (attempt = 0 →
      3/4 ≤ backoff_delay attempt rand ∧ backoff_delay attempt rand < 5/4) ∧
    (0 < attempt →
      (3/2) * (attempt : ℚ) ≤ backoff_delay attempt rand ∧
      backoff_delay attempt rand < (3/2) * (attempt : ℚ) + 1/2) := by
  unfold backoff_delay
  constructor
  · rintro rfl
    norm_num
    constructor <;> linarith
  · intro h
    rw [if_pos h]
    constructor <;> nlinarith [h0, h1]

theorem C3_backoff_delay_range_witness :
    (0 : ℚ) ≤ 1/3 ∧ (1/3 : ℚ) < 1 ∧
    ((2 = 0 →
      3/4 ≤ backoff_delay 2 (1/3) ∧ backoff_delay 2 (1/3) < 5/4) ∧
    (0 < 2 →
      (3/2) * ((2 : ℕ) : ℚ) ≤ backoff_delay 2 (1/3) ∧
      backoff_delay 2 (1/3) < (3/2) * ((2 : ℕ) : ℚ) + 1/2)) :=
  ⟨by norm_num, by norm_num,
    C3_backoff_delay_range 2 (1/3) (by norm_num) (by norm_num)⟩

/-- C7: `put` inserts unconditionally — it grows the queue by one message
in every state, with no capacity check, so a queue already at or above
`maxsize` grows strictly past `maxsize`. -/
theorem C7_put_unconditional (q : SendQueue) (m : Message) :
    (q.put m).len = q.len + 1 ∧
    (q.maxsize ≤ q.len → q.maxsize < (q.put m).len) := by
  refine ⟨rfl, fun h => ?_⟩
  simp only [SendQueue.put, SendQueue.len, List.length_cons] at *
  omega

theorem C7_put_unconditional_witness :
    (SendQueue.mk [Message.mk "a" 0 0 0] 1).maxsize ≤
      (SendQueue.mk [Message.mk "a" 0 0 0] 1).len ∧
    (SendQueue.mk [Message.mk "a" 0 0 0] 1).maxsize <
      ((SendQueue.mk [Message.mk "a" 0 0 0] 1).put (Message.mk "b" 1 1 0)).len :=
  ⟨Nat.le_refl 1,
    (C7_put_unconditional (SendQueue.mk [Message.mk "a" 0 0 0] 1)
      (Message.mk "b" 1 1 0)).2 (Nat.le_refl 1)⟩

theorem extractMin_ne_none (a : Message) (t : List Message) :
    extractMin (a :: t) ≠ none := by
  simp only [extractMin]
  cases extractMin t with
  | none => simp
  | some p =>
    obtain ⟨r, rest'⟩ := p
    by_cases h : Message.lt r a <;> simp [h]

theorem extractMin_perm (l : List Message) :
    ∀ m rest, extractMin l = some (m, rest) → List.Perm (m :: rest) l := by
  induction l with
  | nil => intro m rest h; simp [extractMin] at h
  | cons a t ih =>
    intro m rest h
    cases ht : extractMin t with
    | none =>
      have ht' : t = [] := by
        cases t with
        | nil => rfl
        | cons b u => exact absurd ht (extractMin_ne_none b u)
      subst ht'
      simp only [extractMin, Option.some.injEq, Prod.mk.injEq] at h
      obtain ⟨h1, h2⟩ := h
      subst h1; subst h2
      exact List.Perm.refl _
    | some p =>
      obtain ⟨r, rest'⟩ := p
      simp only [extractMin, ht] at h
      by_cases hlt : Message.lt r a
      · rw [if_pos hlt] at h
        simp only [Option.some.injEq, Prod.mk.injEq] at h
        obtain ⟨h1, h2⟩ := h
        subst h1; subst h2
        exact (List.Perm.swap a r rest').trans ((ih r rest' ht).cons a)
      · rw [if_neg hlt] at h
        simp only [Option.some.injEq, Prod.mk.injEq] at h
        obtain ⟨h1, h2⟩ := h
        subst h1; subst h2
        exact List.Perm.refl _

theorem extractMin_le (l : List Message) :
    ∀ m rest, extractMin l = some (m, rest) →
      ∀ x ∈ l, m.send_at ≤ x.send_at := by
  induction l with
  | nil => intro m rest h; simp [extractMin] at h
  | cons a t ih =>
    intro m rest h x hx
    cases ht : extractMin t with
    | none =>
      have ht' : t = [] := by
        cases t with
        | nil => rfl
        | cons b u => exact absurd ht (extractMin_ne_none b u)
      subst ht'
      simp only [extractMin, Option.some.injEq, Prod.mk.injEq] at h
      obtain ⟨h1, h2⟩ := h
      subst h1
      simp only [List.mem_singleton] at hx
      subst hx
      exact le_refl _
    | some p =>
      obtain ⟨r, rest'⟩ := p
      simp only [extractMin, ht] at h
      rcases List.mem_cons.mp hx with hxa | hxt
      · by_cases hlt : Message.lt r a
        · rw [if_pos hlt] at h
          simp only [Option.some.injEq, Prod.mk.injEq] at h
          obtain ⟨rfl, rfl⟩ := h
          rw [hxa]
          exact le_of_lt hlt
        · rw [if_neg hlt] at h
          simp only [Option.some.injEq, Prod.mk.injEq] at h
          obtain ⟨rfl, rfl⟩ := h
          rw [hxa]
      · by_cases hlt : Message.lt r a
        · rw [if_pos hlt] at h
          simp only [Option.some.injEq, Prod.mk.injEq] at h
          obtain ⟨rfl, rfl⟩ := h
          exact ih r rest' ht x hxt
        · rw [if_neg hlt] at h
          simp only [Option.some.injEq, Prod.mk.injEq] at h
          obtain ⟨rfl, rfl⟩ := h
          have hra : ¬ r.send_at < a.send_at := hlt
          exact (not_lt.mp hra).trans (ih r rest' ht x hxt)

theorem drainAux_subset : ∀ (fuel : ℕ) (l : List Message),
    ∀ x ∈ drainAux fuel l, x ∈ l := by
  intro fuel
  induction fuel with
  | zero => intro l x hx; simp [drainAux] at hx
  | succ n ih =>
    intro l x hx
    cases hl : extractMin l with
    | none => simp [drainAux, hl] at hx
    | some p =>
      obtain ⟨m, rest⟩ := p
      simp only [drainAux, hl] at hx
      have hperm := extractMin_perm l m rest hl
      rcases List.mem_cons.mp hx with h1 | h2
      · subst h1; exact hperm.mem_iff.mp (List.mem_cons_self _ _)
      · exact hperm.mem_iff.mp (List.mem_cons_of_mem _ (ih rest x h2))

theorem drainAux_sorted : ∀ (fuel : ℕ) (l : List Message),
    List.Pairwise (fun x y : Message => x.send_at ≤ y.send_at)
      (drainAux fuel l) := by
  intro fuel
  induction fuel with
  | zero => intro l; simp [drainAux]
  | succ n ih =>
    intro l
    cases hl : extractMin l with
    | none => simp [drainAux, hl]
    | some p =>
      obtain ⟨m, rest⟩ := p
      simp only [drainAux, hl]
      refine List.Pairwise.cons ?_ (ih rest)
      intro y hy
      have hyrest : y ∈ rest := drainAux_subset n rest y hy
      have hperm := extractMin_perm l m rest hl
      exact extractMin_le l m rest hl y
        (hperm.mem_iff.mp (List.mem_cons_of_mem _ hyrest))

theorem drainAux_perm : ∀ (fuel : ℕ) (l : List Message), l.length ≤ fuel →
    List.Perm (drainAux fuel l) l := by
  intro fuel
  induction fuel with
  | zero =>
    intro l h
    have hl : l = [] := List.length_eq_zero.mp (Nat.le_zero.mp h)
    subst hl; simp [drainAux, extractMin]
  | succ n ih =>
    intro l h
    cases hl : extractMin l with
    | none =>
      have hnil : l = [] := by
        cases l with
        | nil => rfl
        | cons a t => exact absurd hl (extractMin_ne_none a t)
      subst hnil; simp [drainAux, extractMin]
    | some p =>
      obtain ⟨m, rest⟩ := p
      simp only [drainAux, hl]
      have hperm := extractMin_perm l m rest hl
      have hlen : rest.length + 1 = l.length := by simpa using hperm.length_eq
      exact ((ih rest (by omega)).cons m).trans hperm

/-- C8: `get` removes and returns a queued message with the smallest
`sendAt` (it is a member, what remains is the rest of the multiset, and
its `sendAt` is minimal); consequently, in the dispatch order `drain`,
any position holding a strictly smaller `sendAt` comes strictly earlier,
so of two queued items with different `sendAt` the smaller one is
retrieved first. -/
theorem C8_get_earliest (q : SendQueue) (m : Message) (q' : SendQueue)
    (i j : ℕ) (hi : i < q.drain.length) (hj : j < q.drain.length)
    (hget : q.get = some (m, q'))
    (hij : (q.drain.get ⟨i, hi⟩).send_at < (q.drain.get ⟨j, hj⟩).send_at) :
    m ∈ q.items ∧ (∀ x ∈ q.items, m.send_at ≤ x.send_at) ∧
    List.Perm (m :: q'.items) q.items ∧ i < j := by
  have hx : extractMin q.items = some (m, q'.items) := by
    unfold SendQueue.get at hget
    cases he : extractMin q.items with
    | none => rw [he] at hget; simp at hget
    | some p =>
      obtain ⟨m2, rest2⟩ := p
      rw [he] at hget
      simp only [Option.some.injEq, Prod.mk.injEq] at hget
      obtain ⟨rfl, rfl⟩ := hget
      rfl
  have hperm := extractMin_perm q.items m q'.items hx
  refine ⟨hperm.mem_iff.mp (List.mem_cons_self _ _),
    extractMin_le q.items m q'.items hx, hperm, ?_⟩
  have hsorted : List.Pairwise (fun x y : Message => x.send_at ≤ y.send_at)
      q.drain := drainAux_sorted q.items.length q.items
  by_contra hc
  rcases eq_or_lt_of_le (Nat.le_of_not_lt hc) with heq | hlt
  · have : i = j := heq.symm
    subst this
    exact absurd hij (lt_irrefl _)
  · have := (List.pairwise_iff_get.mp hsorted) ⟨j, hj⟩ ⟨i, hi⟩ hlt
    exact absurd hij (not_lt.mpr this)

theorem C8_get_earliest_witness :
    (SendQueue.mk [Message.mk "late" 2 0 0, Message.mk "early" 1 0 0] 5).get =
      some (Message.mk "early" 1 0 0,
        SendQueue.mk [Message.mk "late" 2 0 0] 5) ∧
    (0 : ℕ) < (SendQueue.mk [Message.mk "late" 2 0 0,
      Message.mk "early" 1 0 0] 5).drain.length ∧
    (1 : ℕ) < (SendQueue.mk [Message.mk "late" 2 0 0,
      Message.mk "early" 1 0 0] 5).drain.length ∧
    (Message.mk "early" 1 0 0 ∈
        (SendQueue.mk [Message.mk "late" 2 0 0,
          Message.mk "early" 1 0 0] 5).items ∧
      (∀ x ∈ (SendQueue.mk [Message.mk "late" 2 0 0,
          Message.mk "early" 1 0 0] 5).items,
        (Message.mk "early" 1 0 0).send_at ≤ x.send_at) ∧
      List.Perm (Message.mk "early" 1 0 0 ::
          (SendQueue.mk [Message.mk "late" 2 0 0] 5).items)
        (SendQueue.mk [Message.mk "late" 2 0 0,
          Message.mk "early" 1 0 0] 5).items ∧
      (0 : ℕ) < 1) := by
  have hlen : (SendQueue.mk [Message.mk "late" 2 0 0,
      Message.mk "early" 1 0 0] 5).drain.length = 2 := by
    simp [SendQueue.drain, drainAux, extractMin, Message.lt]
  have h0 : (0 : ℕ) < (SendQueue.mk [Message.mk "late" 2 0 0,
      Message.mk "early" 1 0 0] 5).drain.length := by omega
  have h1 : (1 : ℕ) < (SendQueue.mk [Message.mk "late" 2 0 0,
      Message.mk "early" 1 0 0] 5).drain.length := by omega
  have hget : (SendQueue.mk [Message.mk "late" 2 0 0,
      Message.mk "early" 1 0 0] 5).get =
      some (Message.mk "early" 1 0 0,
        SendQueue.mk [Message.mk "late" 2 0 0] 5) := by
    simp [SendQueue.get, extractMin, Message.lt]
  have hij : ((SendQueue.mk [Message.mk "late" 2 0 0,
        Message.mk "early" 1 0 0] 5).drain.get ⟨0, h0⟩).send_at <
      ((SendQueue.mk [Message.mk "late" 2 0 0,
        Message.mk "early" 1 0 0] 5).drain.get ⟨1, h1⟩).send_at := by
    simp [SendQueue.drain, drainAux, extractMin, Message.lt]
  exact ⟨hget, h0, h1,
    C8_get_earliest _ (Message.mk "early" 1 0 0)
      (SendQueue.mk [Message.mk "late" 2 0 0] 5) 0 1 h0 h1 hget hij⟩

theorem acceptAll_spec (calls : List (ℚ × String)) :
    ∀ q : SendQueue, q.items.length ≤ q.maxsize →
    (acceptAll q calls).2 =
      List.replicate (min calls.length (q.maxsize - q.items.length)) true ++
        List.replicate (calls.length - (q.maxsize - q.items.length)) false ∧
    (acceptAll q calls).1.items.length =
      min (q.items.length + calls.length) q.maxsize ∧
    (acceptAll q calls).1.maxsize = q.maxsize := by
  induction calls with
  | nil =>
    intro q h
    refine ⟨by simp [acceptAll], by simp [acceptAll]; omega, rfl⟩
  | cons c rest ih =>
    intro q h
    by_cases hlt : q.items.length < q.maxsize
    · have hacc : q.accept c.1 c.2 =
          (SendQueue.mk (Message.mk c.2 c.1 c.1 0 :: q.items) q.maxsize,
            true) := by
        simp [SendQueue.accept, hlt]
      obtain ⟨ihb, ihl, ihm⟩ :=
        ih (SendQueue.mk (Message.mk c.2 c.1 c.1 0 :: q.items) q.maxsize)
          (by simp only [List.length_cons]; omega)
      refine ⟨?_, ?_, ?_⟩
      · simp only [acceptAll, hacc]
        rw [ihb]
        simp only [List.length_cons]
        rw [show min (rest.length + 1) (q.maxsize - q.items.length) =
              (min rest.length (q.maxsize - (q.items.length + 1))) + 1 by
            omega,
          show (rest.length + 1) - (q.maxsize - q.items.length) =
              rest.length - (q.maxsize - (q.items.length + 1)) by omega,
          List.replicate_succ]
        rfl
      · simp only [acceptAll, hacc]
        rw [ihl]
        simp only [List.length_cons]
        omega
      · simp only [acceptAll, hacc]
        rw [ihm]
    · have hacc : q.accept c.1 c.2 = (q, false) := by
        simp [SendQueue.accept, hlt]
      obtain ⟨ihb, ihl, ihm⟩ := ih q h
      have hM : q.maxsize - q.items.length = 0 := by omega
      refine ⟨?_, ?_, ?_⟩
      · simp only [acceptAll, hacc]
        rw [ihb, hM]
        simp only [List.length_cons, Nat.min_zero, Nat.sub_zero,
          List.replicate_zero, List.nil_append, List.replicate_succ]
      · simp only [acceptAll, hacc]
        rw [ihl]
        simp only [List.length_cons]
        omega
      · simp only [acceptAll, hacc]
        rw [ihm]

/-- C6: `accept(now, body)` builds a `Message` with `sendAt = now`,
`queuedAt = now`, `attempt = 0`, inserting it and returning `true`
exactly when the size is strictly below `maxsize` and returning `false`
otherwise; starting from an empty queue, the first `maxsize` of any
sequence of `accept` calls return `true`, every later call returns
`false`, and the size stays at `maxsize` across the refused calls. -/
theorem C6_accept_capacity (q : SendQueue) (now : ℚ) (body : String)
    (calls : List (ℚ × String)) (hq : q.items = []) :
    (q.items.length < q.maxsize →
      q.accept now body =
        (SendQueue.mk (Message.mk body now now 0 :: q.items) q.maxsize,
          true)) ∧
    (q.maxsize ≤ q.items.length → q.accept now body = (q, false)) ∧
    (acceptAll q calls).2 =
      List.replicate (min calls.length q.maxsize) true ++
        List.replicate (calls.length - q.maxsize) false ∧
    (acceptAll q calls).1.len = min calls.length q.maxsize := by
  have h0 : q.items.length = 0 := by rw [hq]; rfl
  have hle : q.items.length ≤ q.maxsize := by omega
  obtain ⟨hb, hl, hm⟩ := acceptAll_spec calls q hle
  refine ⟨?_, ?_, ?_, ?_⟩
  · intro h
    simp [SendQueue.accept, h]
  · intro h
    simp [SendQueue.accept, Nat.not_lt.mpr h]
  · rw [hb, h0, Nat.sub_zero]
  · rw [SendQueue.len, hl, h0, Nat.zero_add]

theorem C6_accept_capacity_witness :
    (SendQueue.mk [] 2).items = [] ∧
    (((SendQueue.mk ([] : List Message) 2).items.length <
        (SendQueue.mk ([] : List Message) 2).maxsize →
      (SendQueue.mk ([] : List Message) 2).accept 0 "x" =
        (SendQueue.mk
          (Message.mk "x" 0 0 0 :: (SendQueue.mk ([] : List Message) 2).items)
          (SendQueue.mk ([] : List Message) 2).maxsize, true)) ∧
    ((SendQueue.mk ([] : List Message) 2).maxsize ≤
        (SendQueue.mk ([] : List Message) 2).items.length →
      (SendQueue.mk ([] : List Message) 2).accept 0 "x" =
        (SendQueue.mk ([] : List Message) 2, false)) ∧
    (acceptAll (SendQueue.mk ([] : List Message) 2)
        [(0, "a"), (0, "b"), (0, "c")]).2 =
      List.replicate (min 3 (SendQueue.mk ([] : List Message) 2).maxsize)
          true ++
        List.replicate (3 - (SendQueue.mk ([] : List Message) 2).maxsize)
          false ∧
    (acceptAll (SendQueue.mk ([] : List Message) 2)
        [(0, "a"), (0, "b"), (0, "c")]).1.len =
      min 3 (SendQueue.mk ([] : List Message) 2).maxsize) :=
  ⟨rfl, C6_accept_capacity (SendQueue.mk [] 2) 0 "x"
    [(0, "a"), (0, "b"), (0, "c")] rfl⟩

/-- C5: under a monotonic clock the limiter's `available` stays within
`[0, bucket_size]` across `is_allowed` (the refill is nonnegative and the
clamp caps it), an idle stretch of at least `window_secs` saturates it at
exactly `bucket_size`, a `true` verdict guarantees at least one whole
token, and after the caller-side deduction in `SenderThread.send` the
count is still within `[0, bucket_size]`. -/
theorem C5_limiter_bounds (r : RateLimiter) (now : ℚ)
    (st : SenderState) (item : Message) (send_rand : ℚ)
    (transport : Except PyErr Unit)
    (h0 : 0 ≤ r.available) (h1 : r.available ≤ (r.bucket_size : ℚ))
    (hm : r.last_tick ≤ now) (hst : st.rate_limiter = r) :
    0 ≤ ((r.is_allowed now).2).available ∧
    ((r.is_allowed now).2).available ≤ (r.bucket_size : ℚ) ∧
    ((r.is_allowed now).1 = true → 1 ≤ ((r.is_allowed now).2).available) ∧
    (0 < r.window_secs → (r.window_secs : ℚ) ≤ now - r.last_tick →
      ((r.is_allowed now).2).available = (r.bucket_size : ℚ)) ∧
    0 ≤ (SenderThread.send st item now send_rand
        transport).2.rate_limiter.available ∧
    (SenderThread.send st item now send_rand
        transport).2.rate_limiter.available ≤ (r.bucket_size : ℚ) := by
  have hpn : 0 ≤ now - r.last_tick := by linarith
  have hbn : (0 : ℚ) ≤ (r.bucket_size : ℚ) := Nat.cast_nonneg _
  have hwn : (0 : ℚ) ≤ (r.window_secs : ℚ) := Nat.cast_nonneg _
  have hadd : 0 ≤ (now - r.last_tick) * (r.bucket_size : ℚ) /
      (r.window_secs : ℚ) :=
    div_nonneg (mul_nonneg hpn hbn) hwn
  have havail : ((r.is_allowed now).2).available =
      if r.available + (now - r.last_tick) * (r.bucket_size : ℚ) /
          (r.window_secs : ℚ) > (r.bucket_size : ℚ)
      then (r.bucket_size : ℚ)
      else r.available + (now - r.last_tick) * (r.bucket_size : ℚ) /
          (r.window_secs : ℚ) := rfl
  have hA : 0 ≤ ((r.is_allowed now).2).available := by
    rw [havail]
    split
    · exact hbn
    · linarith
  have hB : ((r.is_allowed now).2).available ≤ (r.bucket_size : ℚ) := by
    rw [havail]
    split
    · exact le_refl _
    · next hc => linarith [not_lt.mp hc]
  have hflag : (r.is_allowed now).1 =
      decide (((r.is_allowed now).2).available ≥ 1) := rfl
  have hD : (r.is_allowed now).1 = true →
      1 ≤ ((r.is_allowed now).2).available := by
    intro h
    rw [hflag] at h
    exact of_decide_eq_true h
  have hS : 0 < r.window_secs → (r.window_secs : ℚ) ≤ now - r.last_tick →
      ((r.is_allowed now).2).available = (r.bucket_size : ℚ) := by
    intro hw hwp
    have hWpos : (0 : ℚ) < (r.window_secs : ℚ) := by exact_mod_cast hw
    have hge : (r.bucket_size : ℚ) ≤
        (now - r.last_tick) * (r.bucket_size : ℚ) / (r.window_secs : ℚ) := by
      rw [le_div_iff₀ hWpos]
      nlinarith
    rw [havail]
    split
    · rfl
    · next hc => linarith [not_lt.mp hc]
  refine ⟨hA, hB, hD, hS, ?_, ?_⟩ <;>
  · rcases hia : r.is_allowed now with ⟨allowed, rl⟩
    have hrl : rl.available = ((r.is_allowed now).2).available := by rw [hia]
    have hfl : allowed = (r.is_allowed now).1 := by rw [hia]
    simp only [SenderThread.send, hst, hia]
    cases allowed with
    | false =>
      simp only [Bool.false_eq_true, if_false]
      rw [hrl]
      first
        | exact hA
        | exact hB
    | true =>
      have h1le : 1 ≤ ((r.is_allowed now).2).available := hD hfl.symm
      cases transport with
      | error e =>
        simp only [if_true]
        rw [hrl]
        linarith
      | ok u =>
        simp only [if_true]
        rw [hrl]
        linarith

theorem C5_limiter_bounds_witness :
    (0 : ℚ) ≤ (RateLimiter.mk 10 0 4 5).available ∧
    (RateLimiter.mk 10 0 4 5).available ≤
      ((RateLimiter.mk 10 0 4 5).bucket_size : ℚ) ∧
    (RateLimiter.mk 10 0 4 5).last_tick ≤ (7 : ℚ) ∧
    (SenderState.mk (SendQueue.mk [] 4) (RateLimiter.mk 10 0 4 5) 0 [] []
        []).rate_limiter = RateLimiter.mk 10 0 4 5 ∧
    (0 ≤ (((RateLimiter.mk 10 0 4 5).is_allowed 7).2).available ∧
      (((RateLimiter.mk 10 0 4 5).is_allowed 7).2).available ≤
        ((RateLimiter.mk 10 0 4 5).bucket_size : ℚ) ∧
      (((RateLimiter.mk 10 0 4 5).is_allowed 7).1 = true →
        1 ≤ (((RateLimiter.mk 10 0 4 5).is_allowed 7).2).available) ∧
      (0 < (RateLimiter.mk 10 0 4 5).window_secs →
        ((RateLimiter.mk 10 0 4 5).window_secs : ℚ) ≤
          7 - (RateLimiter.mk 10 0 4 5).last_tick →
        (((RateLimiter.mk 10 0 4 5).is_allowed 7).2).available =
          ((RateLimiter.mk 10 0 4 5).bucket_size : ℚ)) ∧
      0 ≤ (SenderThread.send
          (SenderState.mk (SendQueue.mk [] 4) (RateLimiter.mk 10 0 4 5) 0 []
            [] [])
          (Message.mk "m" 0 0 0) 7 0
          (Except.ok ())).2.rate_limiter.available ∧
      (SenderThread.send
          (SenderState.mk (SendQueue.mk [] 4) (RateLimiter.mk 10 0 4 5) 0 []
            [] [])
          (Message.mk "m" 0 0 0) 7 0
          (Except.ok ())).2.rate_limiter.available ≤
        ((RateLimiter.mk 10 0 4 5).bucket_size : ℚ)) :=
  ⟨by norm_num, by norm_num, by norm_num, rfl,
    C5_limiter_bounds (RateLimiter.mk 10 0 4 5) 7
      (SenderState.mk (SendQueue.mk [] 4) (RateLimiter.mk 10 0 4 5) 0 [] [] [])
      (Message.mk "m" 0 0 0) 0 (Except.ok ())
      (by norm_num) (by norm_num) (by norm_num) rfl⟩

/-- C2: when the limiter refuses, `send` bumps the rate-limited counter
exactly once, keeps the refilled-but-undeducted limiter state, touches no
histogram, and reports failure; `try_send` then re-enqueues
`nextAttempt(delay)` with the backoff delay — the condition is converted
into a scheduled retry, neither surfaced to the producer nor dropped. -/
theorem C2_rate_limited_retry (st : SenderState) (item : Message)
    (now send_rand delay_rand : ℚ) (transport : Except PyErr Unit)
    (href : (st.rate_limiter.is_allowed now).1 = false) :
    SenderThread.send st item now send_rand transport =
      (Except.ok false,
        { st with rate_limiter := (st.rate_limiter.is_allowed now).2,
                  rate_limited := st.rate_limited + 1 }) ∧
    SenderThread.try_send st item now send_rand delay_rand transport =
      { st with rate_limiter := (st.rate_limiter.is_allowed now).2,
                rate_limited := st.rate_limited + 1,
                queue := st.queue.put (item.make_next_attempt now
                  (backoff_delay item.attempt delay_rand)) } := by
  have hsend : SenderThread.send st item now send_rand transport =
      (Except.ok false,
        { st with rate_limiter := (st.rate_limiter.is_allowed now).2,
                  rate_limited := st.rate_limited + 1 }) := by
    rcases hia : st.rate_limiter.is_allowed now with ⟨allowed, rl⟩
    have hfa : allowed = false := by
      have h := href
      rw [hia] at h
      exact h
    subst hfa
    simp [SenderThread.send, hia]
  refine ⟨hsend, ?_⟩
  simp only [SenderThread.try_send, hsend]

theorem C2_rate_limited_retry_witness :
    ((RateLimiter.mk 10 0 0 5).is_allowed 0).1 = false ∧
    (SenderThread.send
        (SenderState.mk (SendQueue.mk [] 9) (RateLimiter.mk 10 0 0 5) 3 [] []
          [])
        (Message.mk "m" 0 0 1) 0 0 (Except.ok ()) =
      (Except.ok false,
        { SenderState.mk (SendQueue.mk [] 9) (RateLimiter.mk 10 0 0 5) 3 [] []
            [] with
          rate_limiter := ((RateLimiter.mk 10 0 0 5).is_allowed 0).2,
          rate_limited := 3 + 1 }) ∧
    SenderThread.try_send
        (SenderState.mk (SendQueue.mk [] 9) (RateLimiter.mk 10 0 0 5) 3 [] []
          [])
        (Message.mk "m" 0 0 1) 0 0 (1/4) (Except.ok ()) =
      { SenderState.mk (SendQueue.mk [] 9) (RateLimiter.mk 10 0 0 5) 3 [] []
          [] with
        rate_limiter := ((RateLimiter.mk 10 0 0 5).is_allowed 0).2,
        rate_limited := 3 + 1,
        queue := (SendQueue.mk [] 9).put ((Message.mk "m" 0 0 1).make_next_attempt
          0 (backoff_delay 1 (1/4))) }) := by
  have hr : ((RateLimiter.mk 10 0 0 5).is_allowed 0).1 = false := by
    norm_num [RateLimiter.is_allowed]
  exact ⟨hr,
    C2_rate_limited_retry
      (SenderState.mk (SendQueue.mk [] 9) (RateLimiter.mk 10 0 0 5) 3 [] [] [])
      (Message.mk "m" 0 0 1) 0 0 (1/4) (Except.ok ()) hr⟩

/-- C10: when the limiter admits the message but the transport step
raises, `try_send` catches the exception and performs no retry: the
message is dropped (queue unchanged, no `nextAttempt` built), no
histogram observation is recorded, the counter is untouched; only the
limiter — refilled and deducted before the raise — differs. -/
theorem C10_transport_exception_drops (st : SenderState) (item : Message)
    (now send_rand delay_rand : ℚ) (e : PyErr)
    (hall : (st.rate_limiter.is_allowed now).1 = true) :
    SenderThread.try_send st item now send_rand delay_rand
        (Except.error e) =
      { st with rate_limiter :=
          { (st.rate_limiter.is_allowed now).2 with
            available :=
              ((st.rate_limiter.is_allowed now).2).available - 1 } } := by
  rcases hia : st.rate_limiter.is_allowed now with ⟨allowed, rl⟩
  have hta : allowed = true := by
    have h := hall
    rw [hia] at h
    exact h
  subst hta
  simp [SenderThread.try_send, SenderThread.send, hia]

theorem C10_transport_exception_drops_witness :
    ((RateLimiter.mk 10 0 10 5).is_allowed 0).1 = true ∧
    SenderThread.try_send
        (SenderState.mk (SendQueue.mk [] 9) (RateLimiter.mk 10 0 10 5) 0 [] []
          [])
        (Message.mk "m" 0 0 0) 0 0 0 (Except.error (PyErr.err "boom")) =
      { SenderState.mk (SendQueue.mk [] 9) (RateLimiter.mk 10 0 10 5) 0 [] []
          [] with
        rate_limiter :=
          { ((RateLimiter.mk 10 0 10 5).is_allowed 0).2 with
            available :=
              (((RateLimiter.mk 10 0 10 5).is_allowed 0).2).available - 1 } } := by
  have hr : ((RateLimiter.mk 10 0 10 5).is_allowed 0).1 = true := by
    norm_num [RateLimiter.is_allowed]
  exact ⟨hr,
    C10_transport_exception_drops
      (SenderState.mk (SendQueue.mk [] 9) (RateLimiter.mk 10 0 10 5) 0 [] []
        [])
      (Message.mk "m" 0 0 0) 0 0 0 (PyErr.err "boom") hr⟩

/-- When the queue yields `(item, q')`, the `try` body reduces to its two
live branches: too-early push-back (sleep skipped) or `try_send`. -/
theorem run_body_eq (st : SenderState) (now send_rand delay_rand : ℚ)
    (transport : Except PyErr Unit) (item : Message) (q' : SendQueue)
    (hg : st.queue.get = some (item, q')) :
    SenderThread.run_body st now send_rand delay_rand transport =
      if item.send_at > now then
        some (Except.ok ({ st with queue := q'.put item }, false))
      else
        some (Except.ok (SenderThread.try_send { st with queue := q' } item
          now send_rand delay_rand transport, true)) := by
  unfold SenderThread.run_body
  rw [hg]

/-- When the queue yields `(item, q')`, a full loop iteration reduces to
the too-early branch with zero sleep or the `try_send` branch with the
fixed 100 ms sleep. -/
theorem run_iter_eq (st : SenderState) (now send_rand delay_rand : ℚ)
    (transport : Except PyErr Unit) (item : Message) (q' : SendQueue)
    (hg : st.queue.get = some (item, q')) :
    SenderThread.run_iter st now send_rand delay_rand transport =
      if item.send_at > now then
        IterResult.next { st with queue := q'.put item } 0
      else
        IterResult.next (SenderThread.try_send { st with queue := q' } item
          now send_rand delay_rand transport) (1/10) := by
  unfold SenderThread.run_iter
  rw [run_body_eq st now send_rand delay_rand transport item q' hg]
  by_cases h : item.send_at > now
  · rw [if_pos h, if_pos h]
  · rw [if_neg h, if_neg h]

/-- C9: no exception escapes the dispatcher loop: for every state, clock
reading, random draw and transport outcome — including a raising
transport — the iteration never ends `crashed`, and on a nonempty queue
it always proceeds to a next iteration. -/
theorem C9_no_escape (st : SenderState) (now send_rand delay_rand : ℚ)
    (transport : Except PyErr Unit) (e : PyErr)
    (hne : st.queue.items ≠ []) :
    SenderThread.run_iter st now send_rand delay_rand transport ≠
      IterResult.crashed e ∧
    (∃ st2 slp,
      SenderThread.run_iter st now send_rand delay_rand transport =
        IterResult.next st2 slp) := by
  have hget : ∃ m q2, st.queue.get = some (m, q2) := by
    unfold SendQueue.get
    cases hqi : st.queue.items with
    | nil => exact absurd hqi hne
    | cons a t =>
      cases he : extractMin (a :: t) with
      | none => exact absurd he (extractMin_ne_none a t)
      | some p =>
        obtain ⟨m, rest⟩ := p
        exact ⟨m, { st.queue with items := rest }, rfl⟩
  obtain ⟨m, q2, hg⟩ := hget
  rw [run_iter_eq st now send_rand delay_rand transport m q2 hg]
  by_cases hearly : m.send_at > now
  · rw [if_pos hearly]
    exact ⟨by simp, _, _, rfl⟩
  · rw [if_neg hearly]
    exact ⟨by simp, _, _, rfl⟩

theorem C9_no_escape_witness :
    earlyState.queue.items ≠ [] ∧
    (SenderThread.run_iter earlyState 5 0 0
        (Except.error (PyErr.err "net down")) ≠
      IterResult.crashed (PyErr.err "net down") ∧
    (∃ st2 slp,
      SenderThread.run_iter earlyState 5 0 0
          (Except.error (PyErr.err "net down")) =
        IterResult.next st2 slp)) :=
  ⟨by simp [earlyState],
    C9_no_escape earlyState 5 0 0 (Except.error (PyErr.err "net down"))
      (PyErr.err "net down") (by simp [earlyState])⟩

/-- C1 counterexample: an iteration that dequeues a not-yet-due message
re-enqueues it and — because of the `continue` on line 112, which skips
the `time.sleep(0.1)` on line 120 — starts the next iteration with no
sleep at all, not the claimed 100 ms. -/
theorem C1_sleep_counterexample :
    (SenderThread.run_iter earlyState 5 0 0
        (Except.ok ())).sleep_amount = some 0 ∧
    some (0 : ℚ) ≠ some (1/10 : ℚ) := by
  constructor
  · have hg : earlyState.queue.get =
        some (Message.mk "early" 10 0 0, SendQueue.mk [] 5) := rfl
    rw [run_iter_eq earlyState 5 0 0 (Except.ok ())
      (Message.mk "early" 10 0 0) (SendQueue.mk [] 5) hg]
    rw [if_pos (by norm_num :
      (Message.mk "early" 10 0 0).send_at > (5 : ℚ))]
    rfl
  · simp

/-- C1 (amended): the loop sleeps the fixed 100 ms before the next
iteration in every branch that reaches the bottom of the loop body
(rate-limited failure, transport failure, transport exception, and
successful send), but in the too-early re-enqueue branch the `continue`
skips the sleep and the next iteration starts with no delay. -/
theorem C1_sleep_amended (st : SenderState) (now send_rand delay_rand : ℚ)
    (transport : Except PyErr Unit) (item : Message) (q' : SendQueue)
    (hg : st.queue.get = some (item, q')) :
    (item.send_at > now →
      (SenderThread.run_iter st now send_rand delay_rand
        transport).sleep_amount = some 0) ∧
    (¬ item.send_at > now →
      (SenderThread.run_iter st now send_rand delay_rand
        transport).sleep_amount = some (1/10)) := by
  rw [run_iter_eq st now send_rand delay_rand transport item q' hg]
  constructor
  · intro h
    rw [if_pos h]
    rfl
  · intro h
    rw [if_neg h]
    rfl

theorem C1_sleep_amended_witness :
    earlyState.queue.get =
      some (Message.mk "early" 10 0 0, SendQueue.mk [] 5) ∧
    (((Message.mk "early" 10 0 0).send_at > (5 : ℚ) →
      (SenderThread.run_iter earlyState 5 0 0
        (Except.ok ())).sleep_amount = some 0) ∧
    (¬ (Message.mk "early" 10 0 0).send_at > (5 : ℚ) →
      (SenderThread.run_iter earlyState 5 0 0
        (Except.ok ())).sleep_amount = some (1/10))) :=
  ⟨rfl, C1_sleep_amended earlyState 5 0 0 (Except.ok ())
    (Message.mk "early" 10 0 0) (SendQueue.mk [] 5) rfl⟩
